import Mathlib

/-!
Shallow embedding of the VHDR core (src/src-tauri/src/lib.rs): the
multi-exposure merge engine, the luminance analyzer, the debounce filter,
the extension filter and the watcher lifecycle commands.

Machine integers are modelled as `Nat` with explicit `% 2^w` where the
source performs a narrowing cast or could wrap (`u64` accumulators,
`as u16` casts). `Instant`/`Duration` are modelled as milliseconds
(`Nat`); `Instant::duration_since` saturates at zero, which matches
truncated `Nat` subtraction. `HashMap<PathBuf, Instant>` is modelled as
an association list with overwrite-on-insert. Fallible operations return
`Except`. File decoding (`load_rgb16`, which calls into the image crate)
is an external effect and is passed in as an oracle
`decode : String → Except String Rgb16Image`; the embedding of
`merge_hdr` additionally returns the list of paths whose decode was
attempted, so that "no decoding work happens before validation" is a
provable statement. The persistence stage of `merge_hdr` (directory
creation, PNG/EXR writes, timestamps) follows the pixel math in the
source and is elided: the embedding ends at the merged raster.
-/

set_option autoImplicit false

namespace VHDR

/-- One RGB pixel of the canonical raster. In the source this is
`Rgb<u16>`; each channel is a `u16`, modelled as a `Nat` together with
the validity predicate `Rgb16.valid` below. -/
structure Rgb16 where
  r : Nat
  g : Nat
  b : Nat
deriving DecidableEq, Repr

/-- The canonical raster, `ImageBuffer<Rgb<u16>, Vec<u16>>` in the
source: width, height and a row-major pixel buffer. -/
structure Rgb16Image where
  width : Nat
  height : Nat
  pixels : List Rgb16
deriving DecidableEq, Repr

/-- Each channel fits in a `u16` (guaranteed by the Rust type `u16`). -/
def Rgb16.valid (p : Rgb16) : Prop :=
  p.r ≤ 65535 ∧ p.g ≤ 65535 ∧ p.b ≤ 65535

instance (p : Rgb16) : Decidable p.valid := by
  unfold Rgb16.valid; infer_instance

/-- Invariants guaranteed by `ImageBuffer<Rgb<u16>>`: the buffer holds
exactly `width * height` pixels and every channel fits in a `u16`. -/
def Rgb16Image.valid (img : Rgb16Image) : Prop :=
  img.pixels.length = img.width * img.height ∧ ∀ p ∈ img.pixels, p.valid

instance (img : Rgb16Image) : Decidable img.valid := by
  unfold Rgb16Image.valid; infer_instance

/-- `ImageBuffer::get_pixel(x, y)`: row-major lookup. Out-of-range
coordinates (which panic in Rust and never occur in the source's loops)
return a zero pixel. -/
def Rgb16Image.get_pixel (img : Rgb16Image) (x y : Nat) : Rgb16 :=
  img.pixels.getD (y * img.width + x) ⟨0, 0, 0⟩

/-- Modulus of the `u64` accumulators `sum_r`, `sum_g`, `sum_b`. -/
def U64_MOD : Nat := 2 ^ 64

/-- The inner accumulation loop of `merge_hdr` for one channel
(accessor `f`): `sum += p[c] as u64` over all input images, in `u64`
arithmetic. -/
def sumChannel (f : Rgb16 → Nat) (images : List Rgb16Image) (x y : Nat) : Nat :=
  images.foldl (fun s img => (s + f (img.get_pixel x y)) % U64_MOD) 0

/-- The per-pixel body of `merge_hdr`'s merge loop: sum each channel in
`u64`, divide by `images.len() as u64` (integer division) and narrow
with `as u16` (modelled as `% 65536`). -/
def merge_pixel (images : List Rgb16Image) (x y : Nat) : Rgb16 :=
  let count := images.length
  ⟨(sumChannel Rgb16.r images x y / count) % 65536,
   (sumChannel Rgb16.g images x y / count) % 65536,
   (sumChannel Rgb16.b images x y / count) % 65536⟩

/-- The merge loop of `merge_hdr`: a fresh `w × h` buffer whose pixel at
row-major index `i` (i.e. `x = i % w`, `y = i / w`, as enumerated by
`enumerate_pixels_mut`) is the per-channel average. -/
def merge_images (images : List Rgb16Image) (w h : Nat) : Rgb16Image :=
  ⟨w, h, (List.range (w * h)).map fun i => merge_pixel images (i % w) (i / w)⟩

/-- The distinct failure cases of `merge_hdr` up to the merged raster.
The source reports errors as strings; `MergeError.message` reproduces
those strings exactly, so the variants are message-distinguishable. -/
inductive MergeError where
  | invalidTooFew
  | invalidTooMany
  | decodeError (msg : String)
  | dimensionMismatch
deriving DecidableEq, Repr

/-- The exact error strings of the source. -/
def MergeError.message : MergeError → String
  | .invalidTooFew => "合成には最低2枚必要です"
  | .invalidTooMany => "合成は最大5枚までです"
  | .decodeError msg => msg
  | .dimensionMismatch => "画像サイズが一致しません"

/-- `request.paths.iter().map(load_rgb16).collect::<Result<_,_>>()`:
decode every path in order, short-circuiting at the first failure.
Also returns the list of paths whose decode was attempted. -/
def load_all (decode : String → Except String Rgb16Image) :
    List String → Except String (List Rgb16Image) × List String
  | [] => (.ok [], [])
  | p :: ps =>
    match decode p with
    | .error e => (.error e, [p])
    | .ok img =>
      match load_all decode ps with
      | (.error e, log) => (.error e, p :: log)
      | (.ok imgs, log) => (.ok (img :: imgs), p :: log)

/-- `merge_hdr` up to the merged raster: batch-size validation, decode,
dimension validation, per-pixel averaging. The second component is the
list of paths whose decode was attempted (empty means no decoding work
and hence no file I/O at all was performed, since in the source every
filesystem effect of `merge_hdr` — opening images, creating the output
directory, writing PNG/EXR — happens after this validation). -/
def merge_hdr (paths : List String) (decode : String → Except String Rgb16Image) :
    Except MergeError Rgb16Image × List String :=
  if paths.length < 2 then (.error .invalidTooFew, [])
  else if paths.length > 5 then (.error .invalidTooMany, [])
  else
    match load_all decode paths with
    | (.error e, log) => (.error (.decodeError e), log)
    | (.ok images, log) =>
      let width := (images.headD ⟨0, 0, []⟩).width
      let height := (images.headD ⟨0, 0, []⟩).height
      if images.any (fun img => img.width != width || img.height != height) then
        (.error .dimensionMismatch, log)
      else
        (.ok (merge_images images width height), log)

/-- `calculate_average_luma`, with the `f64` arithmetic carried out in
`ℚ`. The BT.709 weights are the exact rationals written in the source
text. On the inputs the claims speak about (zero-area rasters and
all-zero rasters) every floating-point operation the source performs is
exact — products and sums of zeros, and the `pixel_count == 0.0` guard
— so the rational model returns exactly the `f64`/`f32` value. -/
def calculate_average_luma (img : Rgb16Image) : ℚ :=
  let pixel_count : ℚ := (img.width : ℚ) * (img.height : ℚ)
  let total : ℚ := img.pixels.foldl
    (fun t p =>
      t + ((2126 / 10000 : ℚ) * ((p.r : ℚ) / 65535)
         + (7152 / 10000 : ℚ) * ((p.g : ℚ) / 65535)
         + (722 / 10000 : ℚ) * ((p.b : ℚ) / 65535)))
    0
  if pixel_count = 0 then 0 else total / pixel_count

/-- The last path component (`Path::file_name`), i.e. everything after
the final `/` separator. -/
def fileNameOf (path : String) : List Char :=
  (path.toList.reverse.takeWhile (fun c => c != '/')).reverse

/-- `Path::extension()`: `none` when the file name has no `.`, or when
it begins with `.` and has no other `.` (a hidden file); otherwise the
portion of the file name after the final `.`. -/
def extensionOf (path : String) : Option (List Char) :=
  let name := fileNameOf path
  if name.count '.' == 0 then none
  else if name.head? == some '.' && name.count '.' == 1 then none
  else some ((name.reverse.takeWhile (fun c => c != '.')).reverse)

/-- `should_process_file`: lowercase the extension (`str::to_lowercase`,
modelled per character — exact on ASCII extensions) and accept exactly
`png`, `jpg`, `jpeg`. Paths with no extension are rejected. -/
def should_process_file (path : String) : Bool :=
  match extensionOf path with
  | none => false
  | some e =>
    let ext := e.map Char.toLower
    ext == "png".toList || ext == "jpg".toList || ext == "jpeg".toList

/-- `HashMap::get` on the debounce table. -/
def lookupPath : List (String × Nat) → String → Option Nat
  | [], _ => none
  | (k, v) :: rest, p => if k = p then some v else lookupPath rest p

/-- `HashMap::insert` on the debounce table: overwrites an existing
entry for the key. -/
def insertPath : List (String × Nat) → String → Nat → List (String × Nat)
  | [], p, t => [(p, t)]
  | (k, v) :: rest, p, t =>
    if k = p then (p, t) :: rest else (k, v) :: insertPath rest p t

/-- The fixed debounce window, `Duration::from_millis(500)`. -/
def DEBOUNCE_WINDOW_MS : Nat := 500

/-- `debounce_check`. `poisoned` models the outcome of
`recent_events.lock()`: on a poisoned lock the source returns `false`
without touching the table (`Err(_) => return false`). Otherwise: look
up the path; if present and `now.duration_since(last) < 500ms`, return
`false` with the table unchanged; else record `now` for the path and
return `true`. -/
def debounce_check (poisoned : Bool) (m : List (String × Nat)) (path : String)
    (now : Nat) : Bool × List (String × Nat) :=
  if poisoned then (false, m)
  else
    match lookupPath m path with
    | some last =>
      if now - last < DEBOUNCE_WINDOW_MS then (false, m)
      else (true, insertPath m path now)
    | none => (true, insertPath m path now)

/-- The event kinds of the notify crate (`EventKind`). -/
inductive EventKind where
  | any
  | access
  | create
  | modify
  | remove
  | other
deriving DecidableEq, Repr

/-- The `should_emit` test of the watch callback:
`matches!(event.kind, EventKind::Create(_) | EventKind::Modify(_))`. -/
def should_emit (kind : EventKind) : Bool :=
  match kind with
  | .create => true
  | .modify => true
  | _ => false

/-- The event name emitted by the watch callback, as written in the
source: `app_handle.emit("hdr://file-detected", ...)`. -/
def FILE_DETECTED_EVENT : String := "hdr://file-detected"

/-- The per-path loop of the watch callback: skip paths failing the
extension filter, skip paths the debounce filter suppresses, and emit
`(FILE_DETECTED_EVENT, path)` for the rest. Returns the emissions in
order together with the final debounce table. -/
def watch_paths (poisoned : Bool) (now : Nat) :
    List String → List (String × Nat) → List (String × String) × List (String × Nat)
  | [], m => ([], m)
  | p :: ps, m =>
    if should_process_file p then
      match debounce_check poisoned m p now with
      | (true, m2) =>
        match watch_paths poisoned now ps m2 with
        | (emits, m3) => ((FILE_DETECTED_EVENT, p) :: emits, m3)
      | (false, m2) => watch_paths poisoned now ps m2
    else watch_paths poisoned now ps m

/-- The watch callback installed by `watcher_start`: drop events whose
kind is neither create nor modify, then run the per-path loop. `now` is
the `Instant::now()` observed during the callback. -/
def watch_callback (poisoned : Bool) (kind : EventKind) (paths : List String)
    (m : List (String × Nat)) (now : Nat) :
    List (String × String) × List (String × Nat) :=
  if should_emit kind then watch_paths poisoned now paths m
  else ([], m)

/-- The shared `WatcherState`: watch handle (presence only), configured
folder, running flag, debounce table. -/
structure WatcherState where
  watcher : Option Unit
  folder : Option String
  is_watching : Bool
  recent_events : List (String × Nat)
deriving DecidableEq

/-- The error string every command maps a poisoned lock to. -/
def LOCK_ERROR : String := "lock error"

/-- `watcher_set_folder`. `folderOk` models
`path.exists() && path.is_dir()` (an external filesystem fact);
`poisoned` models the outcome of `state.folder.lock()`. -/
def watcher_set_folder (poisoned : Bool) (s : WatcherState) (folder : String)
    (folderOk : Bool) : Except String Unit × WatcherState :=
  if !folderOk then (.error "フォルダが存在しません", s)
  else if poisoned then (.error LOCK_ERROR, s)
  else (.ok (), { s with folder := some folder })

/-- `watcher_start`. The three lock acquisitions (folder, running flag,
watch handle) are modelled by the poisoned flags `fp`, `wp`, `hp` in
source order; `setup` models the fallible construction and registration
of the OS watcher (`RecommendedWatcher::new` / `watcher.watch`). -/
def watcher_start (s : WatcherState) (fp wp hp : Bool)
    (setup : Except String Unit) : Except String Unit × WatcherState :=
  if fp then (.error LOCK_ERROR, s)
  else
    match s.folder with
    | none => (.error "監視フォルダが未設定です", s)
    | some _ =>
      if wp then (.error LOCK_ERROR, s)
      else if s.is_watching then (.error "既に監視中です", s)
      else
        match setup with
        | .error e => (.error e, s)
        | .ok _ =>
          if hp then (.error LOCK_ERROR, s)
          else (.ok (), { s with watcher := some (), is_watching := true })

/-- `watcher_stop`: acquire the handle lock (`hp`) then the running-flag
lock (`wp`), clear the handle and the flag. -/
def watcher_stop (s : WatcherState) (hp wp : Bool) :
    Except String Unit × WatcherState :=
  if hp then (.error LOCK_ERROR, s)
  else if wp then (.error LOCK_ERROR, s)
  else (.ok (), { s with watcher := none, is_watching := false })

/-- `watcher_is_running`: read the running flag. -/
def watcher_is_running (s : WatcherState) (wp : Bool) : Except String Bool :=
  if wp then .error LOCK_ERROR else .ok s.is_watching

/-! ### Helper lemmas -/

theorem foldl_mod64_aux (l : List Nat) (s : Nat) (h : s + l.sum < U64_MOD) :
    l.foldl (fun a b => (a + b) % U64_MOD) s = s + l.sum := by
  induction l generalizing s with
  | nil => simp
  | cons b l ih =>
    have hb : s + b < U64_MOD := by
      have := l.sum.zero_le
      simp only [List.sum_cons] at h
      omega
    simp only [List.foldl_cons, Nat.mod_eq_of_lt hb, List.sum_cons]
    rw [ih (s + b) (by simp only [List.sum_cons] at h; omega)]
    omega

theorem sum_le_length_mul (l : List Nat) (B : Nat) (h : ∀ x ∈ l, x ≤ B) :
    l.sum ≤ l.length * B := by
  induction l with
  | nil => simp
  | cons a l ih =>
    simp only [List.sum_cons, List.length_cons]
    have ha : a ≤ B := h a (List.mem_cons_self a l)
    have hl : l.sum ≤ l.length * B := ih fun x hx => h x (List.mem_cons_of_mem a hx)
    calc a + l.sum ≤ B + l.length * B := Nat.add_le_add ha hl
      _ = (l.length + 1) * B := by ring

theorem sumChannel_eq_sum (f : Rgb16 → Nat) (images : List Rgb16Image) (x y : Nat)
    (h : (images.map fun img => f (img.get_pixel x y)).sum < U64_MOD) :
    sumChannel f images x y = (images.map fun img => f (img.get_pixel x y)).sum := by
  unfold sumChannel
  rw [← List.foldl_map (fun img => f (img.get_pixel x y))
    (fun a b => (a + b) % U64_MOD) images 0]
  simpa using foldl_mod64_aux (images.map fun img => f (img.get_pixel x y)) 0 (by simpa using h)

theorem getD_mem_or_default {α : Type} (P : α → Prop) (l : List α) (n : Nat) (d : α)
    (hl : ∀ p ∈ l, P p) (hd : P d) : P (l.getD n d) := by
  induction l generalizing n with
  | nil => simpa [List.getD] using hd
  | cons a l ih =>
    cases n with
    | zero => simpa [List.getD] using hl a (List.mem_cons_self a l)
    | succ n =>
      simp only [List.getD_cons_succ]
      exact ih n fun p hp => hl p (List.mem_cons_of_mem a hp)

theorem get_pixel_valid (img : Rgb16Image) (hv : ∀ p ∈ img.pixels, p.valid)
    (x y : Nat) : (img.get_pixel x y).valid :=
  getD_mem_or_default Rgb16.valid img.pixels (y * img.width + x) ⟨0, 0, 0⟩ hv
    (by constructor <;> simp)

theorem merge_get_pixel (images : List Rgb16Image) (w h x y : Nat)
    (hx : x < w) (hy : y < h) :
    (merge_images images w h).get_pixel x y = merge_pixel images x y := by
  have hw : 0 < w := lt_of_le_of_lt (Nat.zero_le x) hx
  have hidx : y * w + x < w * h := by
    have h1 : y * w + x < (y + 1) * w := by
      rw [Nat.add_mul, Nat.one_mul]
      omega
    have h2 : (y + 1) * w ≤ h * w := Nat.mul_le_mul_right w (Nat.succ_le_of_lt hy)
    calc y * w + x < (y + 1) * w := h1
      _ ≤ h * w := h2
      _ = w * h := Nat.mul_comm h w
  have hmod : (y * w + x) % w = x := by
    rw [Nat.mul_comm y w, Nat.mul_add_mod]
    exact Nat.mod_eq_of_lt hx
  have hdiv : (y * w + x) / w = y := by
    rw [Nat.mul_comm y w, Nat.mul_add_div hw, Nat.div_eq_of_lt hx]
    exact Nat.add_zero y
  show ((List.range (w * h)).map fun i => merge_pixel images (i % w) (i / w)).getD
      (y * (merge_images images w h).width + x) ⟨0, 0, 0⟩ = merge_pixel images x y
  have hwidth : (merge_images images w h).width = w := rfl
  rw [hwidth]
  have hlen : y * w + x < ((List.range (w * h)).map
      fun i => merge_pixel images (i % w) (i / w)).length := by
    simpa using hidx
  rw [List.getD_eq_getElem _ _ hlen]
  simp only [List.getElem_map, List.getElem_range]
  rw [hmod, hdiv]

theorem lookup_insert_self (m : List (String × Nat)) (p : String) (t : Nat) :
    lookupPath (insertPath m p t) p = some t := by
  induction m with
  | nil => simp [insertPath, lookupPath]
  | cons kv rest ih =>
    by_cases hk : kv.1 = p
    · simp [insertPath, lookupPath, hk]
    · simp [insertPath, lookupPath, hk, ih]

theorem luma_foldl_zero (l : List Rgb16) (t : ℚ)
    (hz : ∀ p ∈ l, p.r = 0 ∧ p.g = 0 ∧ p.b = 0) :
    l.foldl
      (fun t p =>
        t + ((2126 / 10000 : ℚ) * ((p.r : ℚ) / 65535)
           + (7152 / 10000 : ℚ) * ((p.g : ℚ) / 65535)
           + (722 / 10000 : ℚ) * ((p.b : ℚ) / 65535)))
      t = t := by
  induction l generalizing t with
  | nil => simp
  | cons a l ih =>
    obtain ⟨hr, hg, hb⟩ := hz a (List.mem_cons_self a l)
    simp only [List.foldl_cons, hr, hg, hb]
    rw [show (t + ((2126 / 10000 : ℚ) * (((0 : Nat) : ℚ) / 65535)
      + (7152 / 10000 : ℚ) * (((0 : Nat) : ℚ) / 65535)
      + (722 / 10000 : ℚ) * (((0 : Nat) : ℚ) / 65535))) = t by norm_num]
    exact ih t fun p hp => hz p (List.mem_cons_of_mem a hp)

theorem watch_paths_emits (poisoned : Bool) (now : Nat) :
    ∀ (ps : List String) (m : List (String × Nat)),
      ∀ ev ∈ (watch_paths poisoned now ps m).1,
        ev.1 = FILE_DETECTED_EVENT ∧ ev.2 ∈ ps := by
  intro ps
  induction ps with
  | nil =>
    intro m ev hev
    simp [watch_paths] at hev
  | cons p ps ih =>
    intro m ev hev
    simp only [watch_paths] at hev
    by_cases hp : should_process_file p
    · rw [if_pos hp] at hev
      rcases hdb : debounce_check poisoned m p now with ⟨ok, m2⟩
      rw [hdb] at hev
      cases ok with
      | false =>
        obtain ⟨h1, h2⟩ := ih m2 ev hev
        exact ⟨h1, List.mem_cons_of_mem p h2⟩
      | true =>
        dsimp only at hev
        rcases List.mem_cons.mp hev with hhd | htl
        · subst hhd
          exact ⟨rfl, List.mem_cons_self p ps⟩
        · have := ih m2 ev htl
          exact ⟨this.1, List.mem_cons_of_mem p this.2⟩
    · rw [if_neg hp] at hev
      obtain ⟨h1, h2⟩ := ih m ev hev
      exact ⟨h1, List.mem_cons_of_mem p h2⟩

/-! ### Claim theorems -/

/-- C2: a merge request with fewer than 2 or more than 5 paths fails with
the corresponding `InvalidArgument` error and an empty decode trace (no
image is opened; in the source, directory creation and all writes come
after decoding, so no file I/O happens at all), and for 2 to 5 paths the
`InvalidArgument` rejection never occurs, whatever the decoder does. -/
theorem merge_hdr_validates_count (paths : List String)
    (decode : String → Except String Rgb16Image) :
    (paths.length < 2 → merge_hdr paths decode = (.error .invalidTooFew, []))
    ∧ (5 < paths.length → merge_hdr paths decode = (.error .invalidTooMany, []))
    ∧ (2 ≤ paths.length → paths.length ≤ 5 →
        ∀ e, (merge_hdr paths decode).1 = .error e →
          e ≠ MergeError.invalidTooFew ∧ e ≠ MergeError.invalidTooMany) := by
  refine ⟨?_, ?_, ?_⟩
  · intro h
    simp [merge_hdr, h]
  · intro h
    have h2 : ¬ paths.length < 2 := by omega
    simp [merge_hdr, h2, h]
  · intro h2 h5 e he
    have hlt : ¬ paths.length < 2 := by omega
    have hgt : ¬ paths.length > 5 := by omega
    simp only [merge_hdr, if_neg hlt, if_neg hgt] at he
    rcases hres : load_all decode paths with ⟨r, log⟩
    rw [hres] at he
    cases r with
    | error msg =>
      simp only at he
      cases he
      exact ⟨by simp, by simp⟩
    | ok images =>
      simp only at he
      split at he
      · cases he
        exact ⟨by simp, by simp⟩
      · cases he

/-- C2 witness: one path is rejected as too few, with no decode attempted. -/
theorem merge_hdr_validates_count_witness :
    merge_hdr ["a"] (fun _ => .error "x") = (.error .invalidTooFew, []) :=
  (merge_hdr_validates_count ["a"] (fun _ => .error "x")).1 (by decide)

/-- C3: with its lock healthy, the debounce filter accepts a path exactly
when the table has no entry for it or at least 500 ms have elapsed since
its recorded last acceptance; on acceptance it records `now` for the
path, on rejection it leaves the table unchanged; and the concrete
t0 / t0+100ms / t0+600ms sequence behaves as true / false / true. -/
theorem debounce_check_spec (m : List (String × Nat)) (p : String) (now : Nat) :
    ((debounce_check false m p now).1 = true ↔
      (lookupPath m p = none
        ∨ ∃ last, lookupPath m p = some last ∧ DEBOUNCE_WINDOW_MS ≤ now - last))
    ∧ ((debounce_check false m p now).1 = true →
        lookupPath (debounce_check false m p now).2 p = some now)
    ∧ ((debounce_check false m p now).1 = false → (debounce_check false m p now).2 = m)
    ∧ (∀ t0 : Nat,
        (debounce_check false [] p t0).1 = true
        ∧ (debounce_check false (debounce_check false [] p t0).2 p (t0 + 100)).1 = false
        ∧ (debounce_check false
            (debounce_check false (debounce_check false [] p t0).2 p (t0 + 100)).2
            p (t0 + 600)).1 = true) := by
  refine ⟨?_, ?_, ?_, ?_⟩
  · cases hl : lookupPath m p with
    | none => simp [debounce_check, hl]
    | some last =>
      by_cases hw : now - last < DEBOUNCE_WINDOW_MS
      · simp only [debounce_check, hl, if_pos hw, if_neg (Bool.false_ne_true ∘ id)]
        simp [hl]
        omega
      · simp [debounce_check, hl, hw]
        omega
  · intro ht
    cases hl : lookupPath m p with
    | none =>
      simp only [debounce_check, hl, if_neg (by simp : ¬ (false : Bool) = true)]
      exact lookup_insert_self m p now
    | some last =>
      by_cases hw : now - last < DEBOUNCE_WINDOW_MS
      · simp [debounce_check, hl, hw] at ht
      · simp only [debounce_check, hl, if_neg hw, if_neg (by simp : ¬ (false : Bool) = true)]
        exact lookup_insert_self m p now
  · intro hf
    cases hl : lookupPath m p with
    | none => simp [debounce_check, hl] at hf
    | some last =>
      by_cases hw : now - last < DEBOUNCE_WINDOW_MS
      · simp [debounce_check, hl, hw]
      · simp [debounce_check, hl, hw] at hf
  · intro t0
    have e1 : debounce_check false [] p t0 = (true, [(p, t0)]) := by
      simp [debounce_check, lookupPath, insertPath]
    have e2 : debounce_check false [(p, t0)] p (t0 + 100) = (false, [(p, t0)]) := by
      simp [debounce_check, lookupPath, DEBOUNCE_WINDOW_MS]
    have e3 : (debounce_check false [(p, t0)] p (t0 + 600)).1 = true := by
      simp [debounce_check, lookupPath, DEBOUNCE_WINDOW_MS]
    rw [e1]
    exact ⟨rfl, by rw [e2], by rw [e2]; exact e3⟩

/-- C3 witness: a fresh path is accepted. -/
theorem debounce_check_spec_witness :
    (debounce_check false [] "p" 0).1 = true :=
  ((debounce_check_spec [] "p" 0).1).mpr (Or.inl rfl)

/-- C5: the extension filter accepts a path exactly when it has an
extension whose per-character lowercasing is `png`, `jpg` or `jpeg`;
`.PNG`, `.jpg`, `.JPEG` are accepted, `.gif`, `.txt` and extensionless
paths are rejected. -/
theorem should_process_file_spec (path : String) :
    (should_process_file path = true ↔
      ∃ e, extensionOf path = some e ∧
        (e.map Char.toLower = "png".toList
          ∨ e.map Char.toLower = "jpg".toList
          ∨ e.map Char.toLower = "jpeg".toList))
    ∧ should_process_file "a.PNG" = true
    ∧ should_process_file "b.jpg" = true
    ∧ should_process_file "c.JPEG" = true
    ∧ should_process_file "d.gif" = false
    ∧ should_process_file "e.txt" = false
    ∧ should_process_file "noext" = false := by
  refine ⟨?_, by decide, by decide, by decide, by decide, by decide, by decide⟩
  cases he : extensionOf path with
  | none => simp [should_process_file, he]
  | some e => simp [should_process_file, he, or_assoc]

/-- C5 witness: an uppercase extension is accepted. -/
theorem should_process_file_spec_witness :
    should_process_file "a.PNG" = true :=
  (should_process_file_spec "a.PNG").2.1

/-- C6: with healthy locks, `watcher_start` with no folder configured
fails with the NotConfigured message; `watcher_start` while already
watching fails with the AlreadyWatching message and leaves the state
unchanged; `watcher_stop` always succeeds, clears the watch handle and
the running flag, and is idempotent. -/
theorem watcher_lifecycle_spec (s : WatcherState) (setup : Except String Unit) :
    (s.folder = none →
      watcher_start s false false false setup = (.error "監視フォルダが未設定です", s))
    ∧ (∀ f, s.folder = some f → s.is_watching = true →
      watcher_start s false false false setup = (.error "既に監視中です", s))
    ∧ watcher_stop s false false = (.ok (), { s with watcher := none, is_watching := false })
    ∧ (watcher_stop s false false).2.watcher = none
    ∧ (watcher_stop s false false).2.is_watching = false
    ∧ watcher_stop (watcher_stop s false false).2 false false = watcher_stop s false false := by
  refine ⟨?_, ?_, ?_, ?_, ?_, ?_⟩
  · intro h
    simp [watcher_start, h]
  · intro f hf hw
    simp [watcher_start, hf, hw]
  · simp [watcher_stop]
  · simp [watcher_stop]
  · simp [watcher_stop]
  · simp [watcher_stop]

/-- C6 witness: starting an unconfigured idle watcher fails NotConfigured. -/
theorem watcher_lifecycle_spec_witness :
    watcher_start ⟨none, none, false, []⟩ false false false (.ok ()) =
      (.error "監視フォルダが未設定です", ⟨none, none, false, []⟩) :=
  (watcher_lifecycle_spec ⟨none, none, false, []⟩ (.ok ())).1 rfl

/-- C4 amended: every notification the watch callback emits is named
`"hdr://file-detected"` (not `"file-detected"`) and carries one affected
path as its single string payload. -/
theorem watch_callback_event_name (poisoned : Bool) (kind : EventKind)
    (paths : List String) (m : List (String × Nat)) (now : Nat) :
    ∀ ev ∈ (watch_callback poisoned kind paths m now).1,
      ev.1 = FILE_DETECTED_EVENT ∧ ev.2 ∈ paths := by
  intro ev hev
  unfold watch_callback at hev
  by_cases hk : should_emit kind = true
  · rw [if_pos hk] at hev
    exact watch_paths_emits poisoned now paths m ev hev
  · rw [if_neg hk] at hev
    simp at hev

/-- C4 witness: a create event for `a.png` emits exactly one
notification, named `FILE_DETECTED_EVENT` and carrying the path. -/
theorem watch_callback_event_name_witness :
    ("hdr://file-detected" : String) = FILE_DETECTED_EVENT
      ∧ ("a.png" : String) ∈ ["a.png"] :=
  watch_callback_event_name false .create ["a.png"] [] 0
    ("hdr://file-detected", "a.png") (by decide)

/-- C4 counterexample: the watch callback emits an event whose name is
the string `"hdr://file-detected"`, which is not `"file-detected"` as
the claim states. -/
theorem watch_callback_event_name_cex :
    (watch_callback false .create ["a.png"] [] 0).1 = [("hdr://file-detected", "a.png")]
    ∧ ("hdr://file-detected" : String) ≠ "file-detected" := by
  constructor
  · rfl
  · decide

/-- C7 amended: the watcher commands surface a poisoned lock as the
error `"lock error"` at every lock acquisition site, but the debounce
check run by the watch callback returns plain `false` on a poisoned
lock, suppressing the event without surfacing any error and leaving the
table unchanged. -/
theorem lock_error_surfacing (s : WatcherState) (folder : String)
    (setup : Except String Unit) (m : List (String × Nat)) (p : String) (now : Nat) :
    (watcher_set_folder true s folder true).1 = .error LOCK_ERROR
    ∧ (watcher_start s true false false setup).1 = .error LOCK_ERROR
    ∧ (∀ f, s.folder = some f →
        (watcher_start s false true false setup).1 = .error LOCK_ERROR)
    ∧ (∀ f, s.folder = some f → s.is_watching = false →
        (watcher_start s false false true (.ok ())).1 = .error LOCK_ERROR)
    ∧ (watcher_stop s true false).1 = .error LOCK_ERROR
    ∧ (watcher_stop s false true).1 = .error LOCK_ERROR
    ∧ watcher_is_running s true = .error LOCK_ERROR
    ∧ debounce_check true m p now = (false, m) := by
  refine ⟨?_, ?_, ?_, ?_, ?_, ?_, ?_, ?_⟩
  · simp [watcher_set_folder]
  · simp [watcher_start]
  · intro f hf
    simp [watcher_start, hf]
  · intro f hf hw
    simp [watcher_start, hf, hw]
  · simp [watcher_stop]
  · simp [watcher_stop]
  · simp [watcher_is_running]
  · simp [debounce_check]

/-- C7 witness: a poisoned folder lock makes `watcher_set_folder` fail
with the lock error. -/
theorem lock_error_surfacing_witness :
    (watcher_set_folder true ⟨none, none, false, []⟩ "f" true).1 = .error LOCK_ERROR :=
  (lock_error_surfacing ⟨none, none, false, []⟩ "f" (.ok ()) [] "p" 0).1

/-- C7 counterexample: with a poisoned lock the debounce check returns
exactly the same value as an ordinary suppression on the same table —
`(false, table unchanged)` — so the poisoned-lock failure is silently
swallowed, not surfaced as an error. -/
theorem debounce_check_swallows_poison_cex :
    debounce_check true [("a", 1000)] "a" 1100 = (false, [("a", 1000)])
    ∧ debounce_check false [("a", 1000)] "a" 1100 = (false, [("a", 1000)]) := by
  constructor
  · rfl
  · rfl

/-- C8: `calculate_average_luma` returns 0 for every zero-area raster
(the division-by-pixel-count guard) and 0 for every raster all of whose
channel values are zero. On these inputs every `f64` operation of the
source is exact, so the rational model returns the exact float value. -/
theorem calculate_average_luma_zero (img : Rgb16Image) :
    ((img.width = 0 ∨ img.height = 0) → calculate_average_luma img = 0)
    ∧ ((∀ p ∈ img.pixels, p.r = 0 ∧ p.g = 0 ∧ p.b = 0) →
        calculate_average_luma img = 0) := by
  constructor
  · intro h
    rcases h with h | h <;> simp [calculate_average_luma, h]
  · intro hz
    unfold calculate_average_luma
    rw [luma_foldl_zero img.pixels 0 hz]
    dsimp only
    split
    · rfl
    · simp

/-- C8 witness: a 0×3 raster and an all-zero 2×1 raster both have
average luma 0. -/
theorem calculate_average_luma_zero_witness :
    calculate_average_luma ⟨0, 3, []⟩ = 0
    ∧ calculate_average_luma ⟨2, 1, [⟨0, 0, 0⟩, ⟨0, 0, 0⟩]⟩ = 0 :=
  ⟨(calculate_average_luma_zero ⟨0, 3, []⟩).1 (Or.inl rfl),
   (calculate_average_luma_zero ⟨2, 1, [⟨0, 0, 0⟩, ⟨0, 0, 0⟩]⟩).2 (by decide)⟩

/-! ### Merge pixel math (C1, C9, C10) -/

theorem channel_bounds (f : Rgb16 → Nat) (images : List Rgb16Image) (x y : Nat)
    (hb : ∀ img ∈ images, f (img.get_pixel x y) ≤ 65535)
    (h5 : images.length ≤ 5) :
    (images.map fun img => f (img.get_pixel x y)).sum ≤ 5 * 65535
    ∧ sumChannel f images x y = (images.map fun img => f (img.get_pixel x y)).sum
    ∧ (images.map fun img => f (img.get_pixel x y)).sum / images.length ≤ 65535 := by
  have hle : ∀ v ∈ images.map fun img => f (img.get_pixel x y), v ≤ 65535 := by
    intro v hv
    obtain ⟨img, him, rfl⟩ := List.mem_map.mp hv
    exact hb img him
  have hsum : (images.map fun img => f (img.get_pixel x y)).sum
      ≤ (images.map fun img => f (img.get_pixel x y)).length * 65535 :=
    sum_le_length_mul _ 65535 hle
  rw [List.length_map] at hsum
  have hsum5 : (images.map fun img => f (img.get_pixel x y)).sum ≤ 5 * 65535 :=
    le_trans hsum (Nat.mul_le_mul_right 65535 h5)
  refine ⟨hsum5, ?_, ?_⟩
  · exact sumChannel_eq_sum f images x y
      (lt_of_le_of_lt hsum5 (by norm_num [U64_MOD]))
  · rcases Nat.eq_zero_or_pos images.length with h0 | h0
    · simp [h0]
    · have hd := Nat.div_le_div_right (c := images.length) hsum
      rwa [Nat.mul_div_cancel_left 65535 h0] at hd

/-- C1: for a merge of N input rasters (2 ≤ N ≤ 5) of identical
dimensions, every channel of every output pixel (x, y) equals the
truncating integer quotient floor(sum of that channel over all inputs /
N); the 64-bit accumulation and the `as u16` narrowing are lossless. -/
theorem merge_pixel_is_floor_mean (images : List Rgb16Image) (w ht : Nat)
    (hv : ∀ img ∈ images, img.valid)
    (h2 : 2 ≤ images.length) (h5 : images.length ≤ 5)
    (hdim : ∀ img ∈ images, img.width = w ∧ img.height = ht)
    (x y : Nat) (hx : x < w) (hy : y < ht) :
    (merge_images images w ht).get_pixel x y =
      ⟨(images.map fun img => (img.get_pixel x y).r).sum / images.length,
       (images.map fun img => (img.get_pixel x y).g).sum / images.length,
       (images.map fun img => (img.get_pixel x y).b).sum / images.length⟩ := by
  rw [merge_get_pixel images w ht x y hx hy]
  have hbr := channel_bounds Rgb16.r images x y
    (fun img him => (get_pixel_valid img (hv img him).2 x y).1) h5
  have hbg := channel_bounds Rgb16.g images x y
    (fun img him => (get_pixel_valid img (hv img him).2 x y).2.1) h5
  have hbb := channel_bounds Rgb16.b images x y
    (fun img him => (get_pixel_valid img (hv img him).2 x y).2.2) h5
  unfold merge_pixel
  dsimp only
  rw [hbr.2.1, hbg.2.1, hbb.2.1,
    Nat.mod_eq_of_lt (lt_of_le_of_lt hbr.2.2 (by norm_num)),
    Nat.mod_eq_of_lt (lt_of_le_of_lt hbg.2.2 (by norm_num)),
    Nat.mod_eq_of_lt (lt_of_le_of_lt hbb.2.2 (by norm_num))]

/-- C1 witness: merging two 1×1 rasters yields the floor averages
(10+11)/2 = 10, (20+21)/2 = 20, (30+31)/2 = 30. -/
theorem merge_pixel_is_floor_mean_witness :
    (merge_images [⟨1, 1, [⟨10, 20, 30⟩]⟩, ⟨1, 1, [⟨11, 21, 31⟩]⟩] 1 1).get_pixel 0 0
      = ⟨10, 20, 30⟩ :=
  (merge_pixel_is_floor_mean [⟨1, 1, [⟨10, 20, 30⟩]⟩, ⟨1, 1, [⟨11, 21, 31⟩]⟩] 1 1
    (by decide) (by decide) (by decide) (by decide) 0 0 (by decide) (by decide)).trans
    (by decide)

/-- One channel of the implicit safety claim C9: the exact sum is at
most 5·65535, the `u64` accumulation computes it without wrapping, the
quotient by the batch size is at most 65535, and the `as u16` narrowing
(`% 65536`) is the identity on it. -/
def channel_no_overflow (f : Rgb16 → Nat) (images : List Rgb16Image) (x y : Nat) : Prop :=
  (images.map fun img => f (img.get_pixel x y)).sum ≤ 5 * 65535
  ∧ sumChannel f images x y = (images.map fun img => f (img.get_pixel x y)).sum
  ∧ (images.map fun img => f (img.get_pixel x y)).sum / images.length ≤ 65535
  ∧ ((images.map fun img => f (img.get_pixel x y)).sum / images.length) % 65536
      = (images.map fun img => f (img.get_pixel x y)).sum / images.length

/-- C9: for a validated merge batch (2 to 5 inputs of u16 channels) the
divisor is nonzero and, per channel, the 64-bit sum never overflows and
the final 16-bit narrowing of the averaged value is lossless. -/
theorem merge_sum_no_overflow (images : List Rgb16Image)
    (hv : ∀ img ∈ images, img.valid) (h2 : 2 ≤ images.length)
    (h5 : images.length ≤ 5) (x y : Nat) :
    0 < images.length
    ∧ channel_no_overflow Rgb16.r images x y
    ∧ channel_no_overflow Rgb16.g images x y
    ∧ channel_no_overflow Rgb16.b images x y := by
  have hbr := channel_bounds Rgb16.r images x y
    (fun img him => (get_pixel_valid img (hv img him).2 x y).1) h5
  have hbg := channel_bounds Rgb16.g images x y
    (fun img him => (get_pixel_valid img (hv img him).2 x y).2.1) h5
  have hbb := channel_bounds Rgb16.b images x y
    (fun img him => (get_pixel_valid img (hv img him).2 x y).2.2) h5
  refine ⟨by omega, ?_, ?_, ?_⟩
  · exact ⟨hbr.1, hbr.2.1, hbr.2.2,
      Nat.mod_eq_of_lt (lt_of_le_of_lt hbr.2.2 (by norm_num))⟩
  · exact ⟨hbg.1, hbg.2.1, hbg.2.2,
      Nat.mod_eq_of_lt (lt_of_le_of_lt hbg.2.2 (by norm_num))⟩
  · exact ⟨hbb.1, hbb.2.1, hbb.2.2,
      Nat.mod_eq_of_lt (lt_of_le_of_lt hbb.2.2 (by norm_num))⟩

/-- C9 witness: the overflow-safety facts at a concrete two-raster batch. -/
theorem merge_sum_no_overflow_witness :
    0 < ([⟨1, 1, [⟨10, 20, 30⟩]⟩, ⟨1, 1, [⟨11, 21, 31⟩]⟩] : List Rgb16Image).length
    ∧ channel_no_overflow Rgb16.r [⟨1, 1, [⟨10, 20, 30⟩]⟩, ⟨1, 1, [⟨11, 21, 31⟩]⟩] 0 0
    ∧ channel_no_overflow Rgb16.g [⟨1, 1, [⟨10, 20, 30⟩]⟩, ⟨1, 1, [⟨11, 21, 31⟩]⟩] 0 0
    ∧ channel_no_overflow Rgb16.b [⟨1, 1, [⟨10, 20, 30⟩]⟩, ⟨1, 1, [⟨11, 21, 31⟩]⟩] 0 0 :=
  merge_sum_no_overflow [⟨1, 1, [⟨10, 20, 30⟩]⟩, ⟨1, 1, [⟨11, 21, 31⟩]⟩]
    (by decide) (by decide) (by decide) 0 0

/-- C10: merging N identical copies of a raster (2 ≤ N ≤ 5) reproduces
the raster pixel for pixel, since floor(N·a / N) = a. -/
theorem merge_replicate_identity (A : Rgb16Image) (hA : A.valid) (n : Nat)
    (h2 : 2 ≤ n) (h5 : n ≤ 5) (x y : Nat) (hx : x < A.width) (hy : y < A.height) :
    (merge_images (List.replicate n A) A.width A.height).get_pixel x y
      = A.get_pixel x y := by
  rw [merge_get_pixel (List.replicate n A) A.width A.height x y hx hy]
  have hn : 0 < n := by omega
  have hmem : ∀ img ∈ List.replicate n A, img.valid := by
    intro img him
    rw [List.eq_of_mem_replicate him]
    exact hA
  have hmap : ∀ f : Rgb16 → Nat,
      ((List.replicate n A).map fun img => f (img.get_pixel x y)).sum
        = n * f (A.get_pixel x y) := by
    intro f
    rw [List.map_replicate, List.sum_replicate, smul_eq_mul]
  have hch : ∀ f : Rgb16 → Nat, (∀ p : Rgb16, p.valid → f p ≤ 65535) →
      (sumChannel f (List.replicate n A) x y / (List.replicate n A).length) % 65536
        = f (A.get_pixel x y) := by
    intro f hf
    have hb := channel_bounds f (List.replicate n A) x y
      (fun img him => hf _ (get_pixel_valid img (hmem img him).2 x y))
      (by simp [List.length_replicate]; omega)
    rw [hb.2.1, List.length_replicate, hmap f, Nat.mul_div_cancel_left _ hn]
    exact Nat.mod_eq_of_lt
      (lt_of_le_of_lt (hf _ (get_pixel_valid A hA.2 x y)) (by norm_num))
  unfold merge_pixel
  dsimp only
  rw [hch Rgb16.r fun p hp => hp.1, hch Rgb16.g fun p hp => hp.2.1,
    hch Rgb16.b fun p hp => hp.2.2]

/-- C10 witness: merging three copies of a 1×1 raster returns its pixel. -/
theorem merge_replicate_identity_witness :
    (merge_images (List.replicate 3 (⟨1, 1, [⟨7, 8, 9⟩]⟩ : Rgb16Image)) 1 1).get_pixel 0 0
      = Rgb16Image.get_pixel ⟨1, 1, [⟨7, 8, 9⟩]⟩ 0 0 :=
  merge_replicate_identity ⟨1, 1, [⟨7, 8, 9⟩]⟩ (by decide) 3
    (by decide) (by decide) 0 0 (by decide) (by decide)

end VHDR
